import Mathlib

/-!
Shallow embedding of the wavv WAV library (src/chunk.rs, src/fmt.rs,
src/data.rs, src/wav.rs, src/error.rs).  Bytes are modelled as `Nat`
(values < 256), machine integers as `Nat`/`Int` with explicit modular
reduction, Rust `Vec<u8>` as `List Nat`, and a Rust panic (out-of-bounds
slice indexing, unreachable fuel exhaustion) as the distinguished outcome
`PResult.panic`.  Loops are written with an explicit fuel argument that is
always called with `length + 1`, which strictly dominates the number of
iterations of the corresponding `while` loop, so the fuel-exhaustion
branch is unreachable at every call site in this file.
-/

set_option autoImplicit false

namespace Wavv

/-- Error enum from src/error.rs.  Note: the enum has no `TruncatedChunk`
variant. -/
inductive Error where
  | UnknownChunkID : Nat → Nat → Nat → Nat → Error
  | CantParseSliceInto : Error
  | NoWaveTagFound : Error
  | NoRiffChunkFound : Error
  | NoDataChunkFound : Error
  | NoFmtChunkFound : Error
  | UnsupportedBitDepth : Nat → Error
  | UnsupportedFormat : Nat → Error
deriving DecidableEq

/-- Result of running a fallible Rust function: a panic (out-of-bounds
index), an `Err`, or an `Ok` value. -/
inductive PResult (α : Type) where
  | panic : PResult α
  | err : Error → PResult α
  | ok : α → PResult α
deriving DecidableEq

/-- ChunkTag from src/chunk.rs. -/
inductive ChunkTag where
  | Riff : ChunkTag
  | Fmt : ChunkTag
  | Data : ChunkTag
  | Wave : ChunkTag
  | Unknown : Nat → Nat → Nat → Nat → ChunkTag
deriving DecidableEq

/-- ChunkTag::from_bytes: match on the four tag bytes (`R I F F` = 82 73 70 70,
`f m t ␣` = 102 109 116 32, `d a t a` = 100 97 116 97, `W A V E` = 87 65 86 69),
any other array is carried verbatim in `Unknown`. -/
def tagFromBytes (b0 b1 b2 b3 : Nat) : ChunkTag :=
  if b0 = 82 ∧ b1 = 73 ∧ b2 = 70 ∧ b3 = 70 then .Riff
  else if b0 = 102 ∧ b1 = 109 ∧ b2 = 116 ∧ b3 = 32 then .Fmt
  else if b0 = 100 ∧ b1 = 97 ∧ b2 = 116 ∧ b3 = 97 then .Data
  else if b0 = 87 ∧ b1 = 65 ∧ b2 = 86 ∧ b3 = 69 then .Wave
  else .Unknown b0 b1 b2 b3

/-- ChunkTag::to_bytes. -/
def tagToBytes : ChunkTag → List Nat
  | .Riff => [82, 73, 70, 70]
  | .Fmt => [102, 109, 116, 32]
  | .Data => [100, 97, 116, 97]
  | .Wave => [87, 65, 86, 69]
  | .Unknown b0 b1 b2 b3 => [b0, b1, b2, b3]

/-- Chunk from src/chunk.rs: a tag plus the raw payload bytes. -/
structure Chunk where
  id : ChunkTag
  bytes : List Nat
deriving DecidableEq

/-- Chunk::from_bytes: `bytes[0..4]` (panics if fewer than 4 bytes), the
little-endian u32 length from `bytes[4..8]` (panics if fewer than 8), and
the payload `bytes[8..8+size]` (panics if the declared payload extends
beyond the buffer). -/
def chunkFromBytes (bytes : List Nat) : PResult Chunk :=
  if bytes.length < 4 then PResult.panic
  else
    let id := tagFromBytes (bytes.getD 0 0) (bytes.getD 1 0) (bytes.getD 2 0) (bytes.getD 3 0)
    if bytes.length < 8 then PResult.panic
    else
      let size := bytes.getD 4 0 + 256 * bytes.getD 5 0 + 65536 * bytes.getD 6 0 +
        16777216 * bytes.getD 7 0
      if bytes.length < 8 + size then PResult.panic
      else PResult.ok ⟨id, (bytes.drop 8).take size⟩

/-- Chunk::to_bytes: tag, little-endian u32 length, payload. -/
def le32 (n : Nat) : List Nat :=
  [n % 256, n / 256 % 256, n / 65536 % 256, n / 16777216 % 256]

/-- Little-endian bytes of a u16 value. -/
def le16 (n : Nat) : List Nat := [n % 256, n / 256 % 256]

/-- Chunk::to_bytes from src/chunk.rs. -/
def chunkToBytes (c : Chunk) : List Nat :=
  tagToBytes c.id ++ le32 c.bytes.length ++ c.bytes

/-- The extra advance the parse_chunks loop applies after an odd-length
chunk: `(chunk_length & 1) * 8` in src/chunk.rs. -/
def padding_byte (chunk_length : Nat) : Nat := (chunk_length % 2) * 8

/-- The `while index < riff.bytes.len()` loop of parse_chunks.  Each
iteration consumes one unit of fuel; the cursor advances by at least 8, so
`riff.bytes.length + 1` fuel always suffices. -/
def parseLoop (rb : List Nat) : Nat → Nat → List Chunk → PResult (List Chunk)
  | 0, _, _ => PResult.panic
  | fuel + 1, index, chunks =>
    if index < rb.length then
      match chunkFromBytes (rb.drop index) with
      | PResult.panic => PResult.panic
      | PResult.err e => PResult.err e
      | PResult.ok chunk =>
        parseLoop rb fuel (index + 8 + chunk.bytes.length + padding_byte chunk.bytes.length)
          (chunks ++ [chunk])
    else PResult.ok chunks

/-- parse_chunks from src/chunk.rs: read the RIFF record, check its tag,
check the leading `WAVE` marker of its payload (`riff.bytes[0..4]` panics
when the payload has fewer than 4 bytes), then tokenize the rest. -/
def parseChunks (bytes : List Nat) : PResult (List Chunk) :=
  match chunkFromBytes bytes with
  | PResult.panic => PResult.panic
  | PResult.err e => PResult.err e
  | PResult.ok riff =>
    if riff.id ≠ ChunkTag.Riff then PResult.err Error.NoRiffChunkFound
    else if riff.bytes.length < 4 then PResult.panic
    else if (riff.bytes.getD 0 0, riff.bytes.getD 1 0, riff.bytes.getD 2 0,
        riff.bytes.getD 3 0) ≠ (87, 65, 86, 69) then PResult.err Error.NoWaveTagFound
    else parseLoop riff.bytes (riff.bytes.length + 1) 4 []

/-- Fmt from src/fmt.rs. -/
structure Fmt where
  sample_rate : Nat
  num_channels : Nat
  bit_depth : Nat
deriving DecidableEq

/-- Fmt::from_chunk: audio format from `bytes[0..2]`, num_channels from
`bytes[2..4]`, sample_rate from `bytes[4..8]`, bit_depth from
`bytes[14..16]`; every slice panics when it runs past the payload. -/
def fmtFromChunk (chunk : Chunk) : PResult Fmt :=
  if chunk.bytes.length < 2 then PResult.panic
  else
    let format := chunk.bytes.getD 0 0 + 256 * chunk.bytes.getD 1 0
    if format ≠ 1 then PResult.err (Error.UnsupportedFormat format)
    else if chunk.bytes.length < 4 then PResult.panic
    else
      let num_channels := chunk.bytes.getD 2 0 + 256 * chunk.bytes.getD 3 0
      if chunk.bytes.length < 8 then PResult.panic
      else
        let sample_rate := chunk.bytes.getD 4 0 + 256 * chunk.bytes.getD 5 0 +
          65536 * chunk.bytes.getD 6 0 + 16777216 * chunk.bytes.getD 7 0
        if chunk.bytes.length < 16 then PResult.panic
        else
          let bit_depth := chunk.bytes.getD 14 0 + 256 * chunk.bytes.getD 15 0
          PResult.ok ⟨sample_rate, num_channels, bit_depth⟩

/-- Fmt::to_chunk: audio format 1, num_channels, sample_rate, the
recomputed byte rate `(sample_rate * bit_depth * num_channels) / 8` (u32
arithmetic) and block align `(num_channels * bit_depth) / 8` (u16
arithmetic), then bit_depth, all little-endian. -/
def fmtToChunk (f : Fmt) : Chunk :=
  let br := f.sample_rate * f.bit_depth * f.num_channels % 4294967296 / 8
  let ba := f.num_channels * f.bit_depth % 65536 / 8
  ⟨ChunkTag.Fmt,
    [1, 0] ++ le16 f.num_channels ++ le32 f.sample_rate ++ le32 br ++ le16 ba ++
      le16 f.bit_depth⟩

/-- Value of an i16 read from its (already combined) little-endian u16
representation. -/
def i16ofNat (n : Nat) : Int := if n < 32768 then (n : Int) else (n : Int) - 65536

/-- Value of an i32 read from its (already combined) little-endian u32
representation. -/
def i32ofNat (n : Nat) : Int :=
  if n < 2147483648 then (n : Int) else (n : Int) - 4294967296

/-- The 8-bit arm of the `while pos < chunk.bytes.len()` loop of
Data::from_chunk: push `chunk.bytes[pos]` and advance by 1. -/
def decode8Loop (bytes : List Nat) : Nat → Nat → List Nat → PResult (List Nat)
  | 0, _, _ => PResult.panic
  | fuel + 1, pos, s =>
    if pos < bytes.length then
      decode8Loop bytes fuel (pos + 1) (s ++ [bytes.getD pos 0])
    else PResult.ok s

/-- The 16-bit arm of the Data::from_chunk loop: while `pos < len`, read
`bytes[pos]` and `bytes[pos+1]` (the latter panics when only one trailing
byte remains) and advance by 2. -/
def decode16Loop (bytes : List Nat) : Nat → Nat → List Int → PResult (List Int)
  | 0, _, _ => PResult.panic
  | fuel + 1, pos, s =>
    if pos < bytes.length then
      if pos + 1 < bytes.length then
        decode16Loop bytes fuel (pos + 2)
          (s ++ [i16ofNat (bytes.getD pos 0 + 256 * bytes.getD (pos + 1) 0)])
      else PResult.panic
    else PResult.ok s

/-- The 24-bit arm of the Data::from_chunk loop: while `pos < len`, read
the sign bit `bytes[pos+2] >> 7`, choose the synthetic fourth byte 0xFF or
0x00, combine the four little-endian bytes into an i32, and advance by 3;
reading `bytes[pos+2]` panics when fewer than 3 bytes remain. -/
def decode24Loop (bytes : List Nat) : Nat → Nat → List Int → PResult (List Int)
  | 0, _, _ => PResult.panic
  | fuel + 1, pos, s =>
    if pos < bytes.length then
      if pos + 2 < bytes.length then
        decode24Loop bytes fuel (pos + 3)
          (s ++ [i32ofNat (bytes.getD pos 0 + 256 * bytes.getD (pos + 1) 0 +
            65536 * bytes.getD (pos + 2) 0 +
            16777216 * (if bytes.getD (pos + 2) 0 / 128 = 1 then 255 else 0))])
      else PResult.panic
    else PResult.ok s

/-- Data from src/data.rs: samples for the three supported bit depths. -/
inductive Data where
  | BitDepth8 : List Nat → Data
  | BitDepth16 : List Int → Data
  | BitDepth24 : List Int → Data
deriving DecidableEq

/-- Bit depth of the variant held by a `Data` value. -/
def Data.bitDepth : Data → Nat
  | .BitDepth8 _ => 8
  | .BitDepth16 _ => 16
  | .BitDepth24 _ => 24

/-- Each sample fits the machine-integer type of its variant (`u8`, `i16`)
and, for the 24-bit variant, the 24-bit two's-complement value range. -/
def Data.inRange : Data → Prop
  | .BitDepth8 s => ∀ v ∈ s, v < 256
  | .BitDepth16 s => ∀ v ∈ s, -32768 ≤ v ∧ v < 32768
  | .BitDepth24 s => ∀ v ∈ s, -8388608 ≤ v ∧ v < 8388608

/-- Data::from_chunk: dispatch on fmt.bit_depth (8, 16, 24, otherwise
`UnsupportedBitDepth`), then run the decoding loop over the payload. -/
def dataFromChunk (fmt : Fmt) (chunk : Chunk) : PResult Data :=
  if fmt.bit_depth = 8 then
    match decode8Loop chunk.bytes (chunk.bytes.length + 1) 0 [] with
    | PResult.panic => PResult.panic
    | PResult.err e => PResult.err e
    | PResult.ok s => PResult.ok (.BitDepth8 s)
  else if fmt.bit_depth = 16 then
    match decode16Loop chunk.bytes (chunk.bytes.length + 1) 0 [] with
    | PResult.panic => PResult.panic
    | PResult.err e => PResult.err e
    | PResult.ok s => PResult.ok (.BitDepth16 s)
  else if fmt.bit_depth = 24 then
    match decode24Loop chunk.bytes (chunk.bytes.length + 1) 0 [] with
    | PResult.panic => PResult.panic
    | PResult.err e => PResult.err e
    | PResult.ok s => PResult.ok (.BitDepth24 s)
  else PResult.err (Error.UnsupportedBitDepth fmt.bit_depth)

/-- Little-endian bytes of i16::to_le_bytes (two's complement). -/
def i16ToLe (v : Int) : List Nat :=
  [(v % 65536).toNat % 256, (v % 65536).toNat / 256]

/-- The low three little-endian bytes of i32::to_le_bytes (two's
complement), as written by the 24-bit encoder. -/
def i32ToLe3 (v : Int) : List Nat :=
  [(v % 4294967296).toNat % 256, (v % 4294967296).toNat / 256 % 256,
    (v % 4294967296).toNat / 65536 % 256]

/-- The 16-bit encode loop of Data::to_chunk: extend with the
little-endian bytes of each sample. -/
def enc16 : List Int → List Nat
  | [] => []
  | v :: rest => i16ToLe v ++ enc16 rest

/-- The 24-bit encode loop of Data::to_chunk: extend with the low three
little-endian bytes of each sample. -/
def enc24 : List Int → List Nat
  | [] => []
  | v :: rest => i32ToLe3 v ++ enc24 rest

/-- Data::to_chunk from src/data.rs. -/
def dataToChunk : Data → Chunk
  | .BitDepth8 s => ⟨ChunkTag.Data, s⟩
  | .BitDepth16 s => ⟨ChunkTag.Data, enc16 s⟩
  | .BitDepth24 s => ⟨ChunkTag.Data, enc24 s⟩

/-- Wav from src/wav.rs. -/
structure Wav where
  fmt : Fmt
  data : Data
  chunks : List Chunk
deriving DecidableEq

/-- Wav::from_bytes: parse all chunks, find the first Fmt-tagged chunk
(else `NoFmtChunkFound`) and decode it, find the first Data-tagged chunk
(else `NoDataChunkFound`) and decode it with that format, and keep every
chunk whose tag is neither Data nor Fmt, in order. -/
def wavFromBytes (bytes : List Nat) : PResult Wav :=
  match parseChunks bytes with
  | PResult.panic => PResult.panic
  | PResult.err e => PResult.err e
  | PResult.ok parsed =>
    match parsed.find? (fun c => c.id == ChunkTag.Fmt) with
    | none => PResult.err Error.NoFmtChunkFound
    | some fc =>
      match fmtFromChunk fc with
      | PResult.panic => PResult.panic
      | PResult.err e => PResult.err e
      | PResult.ok fmt =>
        match parsed.find? (fun c => c.id == ChunkTag.Data) with
        | none => PResult.err Error.NoDataChunkFound
        | some dc =>
          match dataFromChunk fmt dc with
          | PResult.panic => PResult.panic
          | PResult.err e => PResult.err e
          | PResult.ok data =>
            PResult.ok ⟨fmt, data,
              parsed.filter (fun c => !(c.id == ChunkTag.Data) && !(c.id == ChunkTag.Fmt))⟩

/-- Wav::to_bytes: RIFF header with a placeholder size, WAVE marker, the
framed fmt chunk, the framed data chunk, then the size field at bytes
4..8 is back-patched with the total length minus 8 (as a u32). -/
def wavToBytes (w : Wav) : List Nat :=
  let bytes := [82, 73, 70, 70, 0, 0, 0, 0, 87, 65, 86, 69] ++
    chunkToBytes (fmtToChunk w.fmt) ++ chunkToBytes (dataToChunk w.data)
  let chunk_size := le32 (bytes.length - 8)
  bytes.take 4 ++ chunk_size ++ bytes.drop 8

end Wavv

namespace Wavv

/-- C1: the claim says any read past the end of the buffer during chunk
framing (truncated tag, truncated length field, payload extending beyond
the buffer) makes parsing return a `TruncatedChunk` error and never
trap.  The code has no such error variant and slices unconditionally:
on an empty buffer, a 3-byte tag, a truncated length field, a payload
declared longer than the buffer, and a truncated inner chunk, both
`parse_chunks` and `Wav::from_bytes` hit an out-of-bounds slice (modelled
as `PResult.panic`) instead of returning an error. -/
theorem chunk_framing_truncation_panics :
    parseChunks [] = PResult.panic ∧
    parseChunks [82, 73, 70] = PResult.panic ∧
    parseChunks [82, 73, 70, 70, 10, 0] = PResult.panic ∧
    parseChunks [82, 73, 70, 70, 4, 0, 0, 0, 87, 65] = PResult.panic ∧
    parseChunks [82, 73, 70, 70, 13, 0, 0, 0, 87, 65, 86, 69,
      100, 97, 116, 97, 5, 0, 0, 0, 1] = PResult.panic ∧
    wavFromBytes [82, 73, 70, 70, 13, 0, 0, 0, 87, 65, 86, 69,
      100, 97, 116, 97, 5, 0, 0, 0, 1] = PResult.panic := by decide

/-- C3: after a chunk of odd declared length the framer is supposed to
skip exactly one padding byte (cursor advance 8 + len + 1, i.e. 12 for a
size-3 data chunk).  The code computes `(chunk_length & 1) * 8` and so
skips eight bytes (advance 19 for a size-3 chunk).  In the concrete
buffer below the chunk after the odd-length chunk `abcd` (size 1, one pad
byte at offset 13 of the RIFF payload) is picked up at offset 21, eight
bytes past the payload end, yielding the `wxyz` chunk instead of a chunk
starting one byte after the pad. -/
theorem padding_skip_is_eight_bytes :
    padding_byte 3 = 8 ∧ 8 + 3 + padding_byte 3 = 19 ∧
    parseChunks ([82, 73, 70, 70, 29, 0, 0, 0, 87, 65, 86, 69] ++
        [97, 98, 99, 100, 1, 0, 0, 0, 17, 0] ++ [1, 2, 3, 4, 5, 6, 7] ++
        [119, 120, 121, 122, 0, 0, 0, 0]) =
      PResult.ok [⟨ChunkTag.Unknown 97 98 99 100, [17]⟩,
        ⟨ChunkTag.Unknown 119 120 121 122, []⟩] := by decide

/-- C5: the claim says sample decoding silently drops trailing bytes that
do not form a complete sample.  The decode loop runs `while pos < len`
and indexes `bytes[pos + 1]` / `bytes[pos + 2]` unconditionally, so a
16-bit decode of an odd-length payload and a 24-bit decode of a payload
whose length is not a multiple of 3 read past the end (modelled as
`PResult.panic`) instead of returning the complete samples. -/
theorem partial_trailing_sample_panics :
    dataFromChunk ⟨48000, 1, 16⟩ ⟨ChunkTag.Data, [0]⟩ = PResult.panic ∧
    dataFromChunk ⟨48000, 1, 16⟩ ⟨ChunkTag.Data, [7, 0, 9]⟩ = PResult.panic ∧
    dataFromChunk ⟨48000, 1, 24⟩ ⟨ChunkTag.Data, [1, 2]⟩ = PResult.panic ∧
    dataFromChunk ⟨48000, 1, 24⟩ ⟨ChunkTag.Data, [1, 2, 3, 4]⟩ = PResult.panic := by decide

/-- C2 counterexample: the value 8388608 = 2^23 is a valid i32 sample of a
`BitDepth24` buffer, but encoding keeps only its low three bytes, so the
round trip decodes it to -8388608 instead of returning it unchanged. -/
theorem roundtrip_24bit_out_of_range_cex :
    dataFromChunk ⟨44100, 1, 24⟩ (dataToChunk (Data.BitDepth24 [8388608])) =
      PResult.ok (Data.BitDepth24 [-8388608]) ∧
    dataFromChunk ⟨44100, 1, 24⟩ (dataToChunk (Data.BitDepth24 [8388608])) ≠
      PResult.ok (Data.BitDepth24 [8388608]) := by decide

/-- C6 counterexample: a buffer whose top-level chunk sequence contains
two fmt-tagged chunks is not rejected: `Wav::from_bytes` succeeds,
decoding the first fmt chunk (sample rate 1000, not the 2000 of the
second), and drops both fmt chunks from the ancillary list, refuting
"succeeds only when exactly one fmt chunk is present". -/
theorem duplicate_fmt_chunks_accepted :
    parseChunks ([82, 73, 70, 70, 62, 0, 0, 0, 87, 65, 86, 69] ++
        [102, 109, 116, 32, 16, 0, 0, 0, 1, 0, 1, 0, 232, 3, 0, 0, 0, 0, 0, 0, 0, 0, 8, 0] ++
        [102, 109, 116, 32, 16, 0, 0, 0, 1, 0, 1, 0, 208, 7, 0, 0, 0, 0, 0, 0, 0, 0, 8, 0] ++
        [100, 97, 116, 97, 2, 0, 0, 0, 42, 43]) =
      PResult.ok [⟨ChunkTag.Fmt, [1, 0, 1, 0, 232, 3, 0, 0, 0, 0, 0, 0, 0, 0, 8, 0]⟩,
        ⟨ChunkTag.Fmt, [1, 0, 1, 0, 208, 7, 0, 0, 0, 0, 0, 0, 0, 0, 8, 0]⟩,
        ⟨ChunkTag.Data, [42, 43]⟩] ∧
    wavFromBytes ([82, 73, 70, 70, 62, 0, 0, 0, 87, 65, 86, 69] ++
        [102, 109, 116, 32, 16, 0, 0, 0, 1, 0, 1, 0, 232, 3, 0, 0, 0, 0, 0, 0, 0, 0, 8, 0] ++
        [102, 109, 116, 32, 16, 0, 0, 0, 1, 0, 1, 0, 208, 7, 0, 0, 0, 0, 0, 0, 0, 0, 8, 0] ++
        [100, 97, 116, 97, 2, 0, 0, 0, 42, 43]) =
      PResult.ok ⟨⟨1000, 1, 8⟩, Data.BitDepth8 [42, 43], []⟩ := by decide

/-- C10: chunk-tag parsing is lossless: for every 4-byte array,
converting the parsed tag back to bytes yields the original bytes (the
four known tags map back to their literals, anything else is carried
verbatim in `Unknown`). -/
theorem chunk_tag_roundtrip (b0 b1 b2 b3 : Nat) :
    tagToBytes (tagFromBytes b0 b1 b2 b3) = [b0, b1, b2, b3] := by
  unfold tagFromBytes
  split_ifs with h1 h2 h3 h4 <;> simp_all [tagToBytes]

/-- C4: 24-bit decoding sign-extends each 3-byte little-endian group via
the most significant bit of the third byte (synthetic fourth byte 0xFF
when set, 0x00 otherwise), and the triples ff ff 7f, 00 00 80, 01 00 00,
ff ff ff decode to 8388607, -8388608, 1 and -1. -/
theorem sign_extension_24bit (b0 b1 b2 : Nat) (h0 : b0 < 256) (h1 : b1 < 256)
    (h2 : b2 < 256) :
    dataFromChunk ⟨44100, 1, 24⟩ ⟨ChunkTag.Data, [b0, b1, b2]⟩ =
      PResult.ok (Data.BitDepth24 [i32ofNat (b0 + 256 * b1 + 65536 * b2 +
        16777216 * (if 128 ≤ b2 then 255 else 0))]) ∧
    dataFromChunk ⟨44100, 1, 24⟩ ⟨ChunkTag.Data, [255, 255, 127]⟩ =
      PResult.ok (Data.BitDepth24 [8388607]) ∧
    dataFromChunk ⟨44100, 1, 24⟩ ⟨ChunkTag.Data, [0, 0, 128]⟩ =
      PResult.ok (Data.BitDepth24 [-8388608]) ∧
    dataFromChunk ⟨44100, 1, 24⟩ ⟨ChunkTag.Data, [1, 0, 0]⟩ =
      PResult.ok (Data.BitDepth24 [1]) ∧
    dataFromChunk ⟨44100, 1, 24⟩ ⟨ChunkTag.Data, [255, 255, 255]⟩ =
      PResult.ok (Data.BitDepth24 [-1]) := by
  refine ⟨?_, by decide, by decide, by decide, by decide⟩
  have hif : (if b2 / 128 = 1 then (255 : Nat) else 0) =
      (if 128 ≤ b2 then 255 else 0) := by split_ifs <;> omega
  simp [dataFromChunk, decode24Loop, List.getD, hif]

/-- C4 witness: the general clause of `sign_extension_24bit` evaluated at
the triple ff ff 7f. -/
theorem sign_extension_24bit_witness :
    dataFromChunk ⟨44100, 1, 24⟩ ⟨ChunkTag.Data, [255, 255, 127]⟩ =
      PResult.ok (Data.BitDepth24 [i32ofNat (255 + 256 * 255 + 65536 * 127 +
        16777216 * (if 128 ≤ 127 then 255 else 0))]) :=
  (sign_extension_24bit 255 255 127 (by decide) (by decide) (by decide)).1

end Wavv

namespace Wavv

/-- Reading an element of an appended list past the prefix. -/
theorem getD_append_len (pre l : List Nat) (k : Nat) :
    (pre ++ l).getD (pre.length + k) 0 = l.getD k 0 := by
  induction pre with
  | nil => simp
  | cons a t ih =>
    have h : (a :: t).length + k = (t.length + k) + 1 := by
      simp [List.length_cons]; omega
    rw [List.cons_append, h, List.getD_cons_succ, ih]

/-- Recombining the two little-endian bytes of an in-range i16 recovers
the value. -/
theorem i16_roundtrip (v : Int) (h1 : -32768 ≤ v) (h2 : v < 32768) :
    i16ofNat (v % 65536).toNat = v := by
  unfold i16ofNat; split <;> omega

/-- Recombining the three little-endian bytes of an i32 in the 24-bit
value range, together with the synthetic sign-extension byte, recovers
the value. -/
theorem i24_roundtrip (v : Int) (h1 : -8388608 ≤ v) (h2 : v < 8388608) :
    i32ofNat ((v % 4294967296).toNat % 256
      + 256 * ((v % 4294967296).toNat / 256 % 256)
      + 65536 * ((v % 4294967296).toNat / 65536 % 256)
      + 16777216 *
        (if (v % 4294967296).toNat / 65536 % 256 / 128 = 1 then 255 else 0)) = v := by
  unfold i32ofNat
  split_ifs <;> omega

/-- The 8-bit decode loop returns the bytes after the cursor unchanged. -/
theorem decode8Loop_append (s : List Nat) : ∀ (fuel : Nat) (pre acc : List Nat),
    s.length + 1 ≤ fuel →
    decode8Loop (pre ++ s) fuel pre.length acc = PResult.ok (acc ++ s) := by
  induction s with
  | nil =>
    intro fuel pre acc h
    obtain ⟨f, rfl⟩ : ∃ f, fuel = f + 1 := ⟨fuel - 1, by omega⟩
    simp [decode8Loop]
  | cons b t ih =>
    intro fuel pre acc h
    obtain ⟨f, rfl⟩ : ∃ f, fuel = f + 1 := ⟨fuel - 1, by omega⟩
    rw [decode8Loop]
    have hlt : pre.length < (pre ++ b :: t).length := by simp
    rw [if_pos hlt]
    have hg : (pre ++ b :: t).getD pre.length 0 = b := by
      simpa using getD_append_len pre (b :: t) 0
    rw [hg]
    have hrec := ih f (pre ++ [b]) (acc ++ [b]) (by simp at h ⊢; omega)
    simpa [List.append_assoc] using hrec

/-- The 16-bit decode loop inverts the 16-bit encode loop for in-range
samples. -/
theorem decode16Loop_enc (s : List Int) (hr : ∀ v ∈ s, -32768 ≤ v ∧ v < 32768) :
    ∀ (fuel : Nat) (pre : List Nat) (acc : List Int), s.length + 1 ≤ fuel →
    decode16Loop (pre ++ enc16 s) fuel pre.length acc = PResult.ok (acc ++ s) := by
  induction s with
  | nil =>
    intro fuel pre acc h
    obtain ⟨f, rfl⟩ : ∃ f, fuel = f + 1 := ⟨fuel - 1, by omega⟩
    simp [decode16Loop, enc16]
  | cons v t ih =>
    intro fuel pre acc h
    obtain ⟨f, rfl⟩ : ∃ f, fuel = f + 1 := ⟨fuel - 1, by omega⟩
    have hv := hr v (List.mem_cons_self v t)
    have hcons : pre ++ enc16 (v :: t) =
        pre ++ ((v % 65536).toNat % 256 :: (v % 65536).toNat / 256 :: enc16 t) := by
      simp [enc16, i16ToLe]
    rw [hcons, decode16Loop]
    have hlt : pre.length < (pre ++ ((v % 65536).toNat % 256 ::
        (v % 65536).toNat / 256 :: enc16 t)).length := by simp
    rw [if_pos hlt]
    have hlt1 : pre.length + 1 < (pre ++ ((v % 65536).toNat % 256 ::
        (v % 65536).toNat / 256 :: enc16 t)).length := by simp
    rw [if_pos hlt1]
    have hg0 := getD_append_len pre
      ((v % 65536).toNat % 256 :: (v % 65536).toNat / 256 :: enc16 t) 0
    rw [Nat.add_zero, List.getD_cons_zero] at hg0
    have hg1 := getD_append_len pre
      ((v % 65536).toNat % 256 :: (v % 65536).toNat / 256 :: enc16 t) 1
    rw [List.getD_cons_succ, List.getD_cons_zero] at hg1
    rw [hg0, hg1]
    have hs : i16ofNat ((v % 65536).toNat % 256 + 256 * ((v % 65536).toNat / 256)) = v := by
      rw [Nat.mod_add_div]; exact i16_roundtrip v hv.1 hv.2
    rw [hs]
    have hrec := ih (fun u hu => hr u (List.mem_cons_of_mem v hu)) f
      (pre ++ [(v % 65536).toNat % 256, (v % 65536).toNat / 256]) (acc ++ [v])
      (by simp at h ⊢; omega)
    simpa [List.append_assoc] using hrec

/-- The 24-bit decode loop inverts the 24-bit encode loop for samples in
the 24-bit value range. -/
theorem decode24Loop_enc (s : List Int) (hr : ∀ v ∈ s, -8388608 ≤ v ∧ v < 8388608) :
    ∀ (fuel : Nat) (pre : List Nat) (acc : List Int), s.length + 1 ≤ fuel →
    decode24Loop (pre ++ enc24 s) fuel pre.length acc = PResult.ok (acc ++ s) := by
  induction s with
  | nil =>
    intro fuel pre acc h
    obtain ⟨f, rfl⟩ : ∃ f, fuel = f + 1 := ⟨fuel - 1, by omega⟩
    simp [decode24Loop, enc24]
  | cons v t ih =>
    intro fuel pre acc h
    obtain ⟨f, rfl⟩ : ∃ f, fuel = f + 1 := ⟨fuel - 1, by omega⟩
    have hv := hr v (List.mem_cons_self v t)
    have hcons : pre ++ enc24 (v :: t) =
        pre ++ ((v % 4294967296).toNat % 256 :: (v % 4294967296).toNat / 256 % 256 ::
          (v % 4294967296).toNat / 65536 % 256 :: enc24 t) := by
      simp [enc24, i32ToLe3]
    rw [hcons, decode24Loop]
    have hlt : pre.length < (pre ++ ((v % 4294967296).toNat % 256 ::
        (v % 4294967296).toNat / 256 % 256 ::
        (v % 4294967296).toNat / 65536 % 256 :: enc24 t)).length := by simp
    rw [if_pos hlt]
    have hlt2 : pre.length + 2 < (pre ++ ((v % 4294967296).toNat % 256 ::
        (v % 4294967296).toNat / 256 % 256 ::
        (v % 4294967296).toNat / 65536 % 256 :: enc24 t)).length := by simp
    rw [if_pos hlt2]
    have hg0 := getD_append_len pre
      ((v % 4294967296).toNat % 256 :: (v % 4294967296).toNat / 256 % 256 ::
        (v % 4294967296).toNat / 65536 % 256 :: enc24 t) 0
    rw [Nat.add_zero, List.getD_cons_zero] at hg0
    have hg1 := getD_append_len pre
      ((v % 4294967296).toNat % 256 :: (v % 4294967296).toNat / 256 % 256 ::
        (v % 4294967296).toNat / 65536 % 256 :: enc24 t) 1
    rw [List.getD_cons_succ, List.getD_cons_zero] at hg1
    have hg2 := getD_append_len pre
      ((v % 4294967296).toNat % 256 :: (v % 4294967296).toNat / 256 % 256 ::
        (v % 4294967296).toNat / 65536 % 256 :: enc24 t) 2
    rw [List.getD_cons_succ, List.getD_cons_succ, List.getD_cons_zero] at hg2
    rw [hg0, hg1, hg2]
    have hs := i24_roundtrip v hv.1 hv.2
    rw [hs]
    have hrec := ih (fun u hu => hr u (List.mem_cons_of_mem v hu)) f
      (pre ++ [(v % 4294967296).toNat % 256, (v % 4294967296).toNat / 256 % 256,
        (v % 4294967296).toNat / 65536 % 256]) (acc ++ [v])
      (by simp at h ⊢; omega)
    simpa [List.append_assoc] using hrec

/-- Length of the 16-bit encoding. -/
theorem enc16_length (s : List Int) : (enc16 s).length = 2 * s.length := by
  induction s with
  | nil => simp [enc16]
  | cons v t ih => simp [enc16, i16ToLe, ih]; omega

/-- Length of the 24-bit encoding. -/
theorem enc24_length (s : List Int) : (enc24 s).length = 3 * s.length := by
  induction s with
  | nil => simp [enc24]
  | cons v t ih => simp [enc24, i32ToLe3, ih]; omega

/-- Decoding an encoded format descriptor recovers its three fields. -/
theorem fmt_roundtrip (f : Fmt) (hsr : f.sample_rate < 4294967296)
    (hnc : f.num_channels < 65536) (hbd : f.bit_depth < 65536) :
    fmtFromChunk (fmtToChunk f) = PResult.ok f := by
  obtain ⟨sr, nc, bd⟩ := f
  simp only [fmtToChunk, fmtFromChunk, le16, le32, List.cons_append, List.nil_append]
  simp only [List.length_cons, List.length_nil, List.getD_cons_zero, List.getD_cons_succ]
  norm_num
  simp only [Fmt.mk.injEq] at hsr hnc hbd ⊢
  omega

end Wavv

namespace Wavv

/-- C2 (amended): for a format with bit depth in {8,16,24} and a matching
sample buffer whose samples lie in the value range of their encoded width
(u8 for 8-bit, i16 for 16-bit, and the 24-bit two's-complement range for
the 24-bit variant), decoding the encoded data chunk returns the original
samples, and decoding the encoded format descriptor returns the same
sample rate, channel count and bit depth. -/
theorem roundtrip_data_fmt (f : Fmt) (d : Data) (hb : f.bit_depth = d.bitDepth)
    (hr : d.inRange) (hsr : f.sample_rate < 4294967296)
    (hnc : f.num_channels < 65536) :
    dataFromChunk f (dataToChunk d) = PResult.ok d ∧
    fmtFromChunk (fmtToChunk f) = PResult.ok f := by
  constructor
  · cases d with
    | BitDepth8 s =>
      simp only [Data.bitDepth] at hb
      have h8 := decode8Loop_append s (s.length + 1) [] [] (le_refl _)
      simp only [List.nil_append, List.length_nil] at h8
      simp [dataFromChunk, dataToChunk, hb, h8]
    | BitDepth16 s =>
      simp only [Data.bitDepth] at hb
      simp only [Data.inRange] at hr
      have h16 := decode16Loop_enc s hr ((enc16 s).length + 1) [] []
        (by rw [enc16_length]; omega)
      simp only [List.nil_append, List.length_nil] at h16
      simp [dataFromChunk, dataToChunk, hb, h16]
    | BitDepth24 s =>
      simp only [Data.bitDepth] at hb
      simp only [Data.inRange] at hr
      have h24 := decode24Loop_enc s hr ((enc24 s).length + 1) [] []
        (by rw [enc24_length]; omega)
      simp only [List.nil_append, List.length_nil] at h24
      simp [dataFromChunk, dataToChunk, hb, h24]
  · refine fmt_roundtrip f hsr hnc ?_
    cases d <;> simp only [Data.bitDepth] at hb <;> omega

/-- C2 witness: the round trip evaluated for a concrete 16-bit stereo
format and sample buffer. -/
theorem roundtrip_data_fmt_witness :
    dataFromChunk ⟨44100, 2, 16⟩ (dataToChunk (Data.BitDepth16 [1, 2, 3, -1])) =
      PResult.ok (Data.BitDepth16 [1, 2, 3, -1]) ∧
    fmtFromChunk (fmtToChunk ⟨44100, 2, 16⟩) = PResult.ok ⟨44100, 2, 16⟩ :=
  roundtrip_data_fmt ⟨44100, 2, 16⟩ (Data.BitDepth16 [1, 2, 3, -1]) rfl
    (by intro v hv; fin_cases hv <;> exact ⟨by decide, by decide⟩)
    (by decide) (by decide)

/-- C6 (amended): given the parsed chunk sequence, `Wav::from_bytes`
fails with `NoFmtChunkFound` when no fmt-tagged chunk is found, fails
with `NoDataChunkFound` when a fmt chunk is found and decodes but no
data-tagged chunk is found, and on success at least one fmt-tagged and
one data-tagged chunk are present (the first of each is decoded) and the
ancillary list is exactly the chunks whose tag is neither Data nor Fmt,
in original order with payloads untouched. -/
theorem wav_from_bytes_first_fmt_data (bytes : List Nat) (chunks : List Chunk)
    (hp : parseChunks bytes = PResult.ok chunks) :
    (chunks.find? (fun c => c.id == ChunkTag.Fmt) = none →
      wavFromBytes bytes = PResult.err Error.NoFmtChunkFound) ∧
    (∀ (fc : Chunk) (f : Fmt), chunks.find? (fun c => c.id == ChunkTag.Fmt) = some fc →
      fmtFromChunk fc = PResult.ok f →
      chunks.find? (fun c => c.id == ChunkTag.Data) = none →
      wavFromBytes bytes = PResult.err Error.NoDataChunkFound) ∧
    (∀ (w : Wav), wavFromBytes bytes = PResult.ok w →
      (∃ c ∈ chunks, c.id = ChunkTag.Fmt) ∧ (∃ c ∈ chunks, c.id = ChunkTag.Data) ∧
      w.chunks = chunks.filter
        (fun c => !(c.id == ChunkTag.Data) && !(c.id == ChunkTag.Fmt))) := by
  have hred : wavFromBytes bytes =
      (match chunks.find? (fun c => c.id == ChunkTag.Fmt) with
       | none => PResult.err Error.NoFmtChunkFound
       | some fc =>
         match fmtFromChunk fc with
         | PResult.panic => PResult.panic
         | PResult.err e => PResult.err e
         | PResult.ok fmt =>
           match chunks.find? (fun c => c.id == ChunkTag.Data) with
           | none => PResult.err Error.NoDataChunkFound
           | some dc =>
             match dataFromChunk fmt dc with
             | PResult.panic => PResult.panic
             | PResult.err e => PResult.err e
             | PResult.ok data =>
               PResult.ok ⟨fmt, data, chunks.filter
                 (fun c => !(c.id == ChunkTag.Data) && !(c.id == ChunkTag.Fmt))⟩) := by
    unfold wavFromBytes
    rw [hp]
  rw [hred]
  refine ⟨fun hn => by rw [hn], ?_, ?_⟩
  · intro fc f hfc hf hdn
    rw [hfc]
    simp only [hf, hdn]
  · intro w hw
    split at hw
    · exact absurd hw (by simp)
    · split at hw
      · exact absurd hw (by simp)
      · exact absurd hw (by simp)
      · split at hw
        · exact absurd hw (by simp)
        · split at hw
          · exact absurd hw (by simp)
          · exact absurd hw (by simp)
          · rename_i a1 fc hfc a2 fmt hf a3 dc hdc a4 dat hd
            injection hw with hw
            subst hw
            refine ⟨⟨fc, List.mem_of_find?_eq_some hfc, by simpa using List.find?_some hfc⟩,
              ⟨dc, List.mem_of_find?_eq_some hdc, by simpa using List.find?_some hdc⟩, rfl⟩

/-- C6 witness: a structurally valid RIFF/WAVE buffer that contains a
data chunk but no fmt chunk fails with `NoFmtChunkFound`. -/
theorem wav_from_bytes_first_fmt_data_witness :
    wavFromBytes [82, 73, 70, 70, 14, 0, 0, 0, 87, 65, 86, 69,
      100, 97, 116, 97, 2, 0, 0, 0, 1, 2] = PResult.err Error.NoFmtChunkFound :=
  (wav_from_bytes_first_fmt_data
    [82, 73, 70, 70, 14, 0, 0, 0, 87, 65, 86, 69, 100, 97, 116, 97, 2, 0, 0, 0, 1, 2]
    [⟨ChunkTag.Data, [1, 2]⟩] (by decide)).1 (by decide)

/-- C7: on a fmt payload of at least 16 bytes, decoding fails with
`UnsupportedFormat(v)` exactly when the little-endian u16 at bytes [0:2)
is not 1, and otherwise succeeds with num_channels from [2:4),
sample_rate from [4:8) and bit_depth from [14:16) (so bytes [8:14) have
no effect on the result); and for a format whose bit depth is outside
{8,16,24}, sample decoding fails with `UnsupportedBitDepth`. -/
theorem fmt_decode_fields (payload : List Nat) (h : 16 ≤ payload.length)
    (f : Fmt) (c : Chunk) (h8 : f.bit_depth ≠ 8) (h16 : f.bit_depth ≠ 16)
    (h24 : f.bit_depth ≠ 24) :
    (payload.getD 0 0 + 256 * payload.getD 1 0 ≠ 1 →
      fmtFromChunk ⟨ChunkTag.Fmt, payload⟩ =
        PResult.err (Error.UnsupportedFormat
          (payload.getD 0 0 + 256 * payload.getD 1 0))) ∧
    (payload.getD 0 0 + 256 * payload.getD 1 0 = 1 →
      fmtFromChunk ⟨ChunkTag.Fmt, payload⟩ =
        PResult.ok ⟨payload.getD 4 0 + 256 * payload.getD 5 0 +
            65536 * payload.getD 6 0 + 16777216 * payload.getD 7 0,
          payload.getD 2 0 + 256 * payload.getD 3 0,
          payload.getD 14 0 + 256 * payload.getD 15 0⟩) ∧
    dataFromChunk f c = PResult.err (Error.UnsupportedBitDepth f.bit_depth) := by
  refine ⟨?_, ?_, ?_⟩
  · intro hv
    simp only [fmtFromChunk]
    split_ifs <;> first | rfl | (exfalso; omega)
  · intro hv
    simp only [fmtFromChunk]
    split_ifs <;> first | rfl | (exfalso; omega)
  · simp only [dataFromChunk]
    rw [if_neg h8, if_neg h16, if_neg h24]

/-- C7 witness: the standard 16-byte fmt payload (format 1, 2 channels,
sample rate 22050, bit depth 16) decodes to its fields, and a bit depth
of 12 fails with `UnsupportedBitDepth 12`. -/
theorem fmt_decode_fields_witness :
    fmtFromChunk ⟨ChunkTag.Fmt, [1, 0, 2, 0, 34, 86, 0, 0, 136, 88, 1, 0, 4, 0, 16, 0]⟩ =
      PResult.ok ⟨22050, 2, 16⟩ ∧
    dataFromChunk ⟨48000, 1, 12⟩ ⟨ChunkTag.Data, []⟩ =
      PResult.err (Error.UnsupportedBitDepth 12) := by
  have h := fmt_decode_fields [1, 0, 2, 0, 34, 86, 0, 0, 136, 88, 1, 0, 4, 0, 16, 0]
    (by decide) ⟨48000, 1, 12⟩ ⟨ChunkTag.Data, []⟩ (by decide) (by decide) (by decide)
  exact ⟨by simpa using h.2.1 (by decide), h.2.2⟩

/-- C8: format encoding emits exactly the 16-byte little-endian layout
audio_format=1, num_channels, sample_rate, recomputed byte rate
sample_rate * bit_depth * num_channels / 8, recomputed block align
num_channels * bit_depth / 8, bit_depth (the hypotheses say the two
products fit their u32/u16 machine words). -/
theorem fmt_encode_layout (f : Fmt)
    (h1 : f.sample_rate * f.bit_depth * f.num_channels < 4294967296)
    (h2 : f.num_channels * f.bit_depth < 65536) :
    fmtToChunk f = ⟨ChunkTag.Fmt,
      [1, 0] ++ le16 f.num_channels ++ le32 f.sample_rate ++
        le32 (f.sample_rate * f.bit_depth * f.num_channels / 8) ++
        le16 (f.num_channels * f.bit_depth / 8) ++ le16 f.bit_depth⟩ ∧
    (fmtToChunk f).bytes.length = 16 := by
  constructor
  · simp only [fmtToChunk]
    rw [Nat.mod_eq_of_lt h1, Nat.mod_eq_of_lt h2]
  · simp [fmtToChunk, le16, le32]

/-- C8 witness: the layout evaluated at a 16-bit stereo 44.1 kHz
descriptor. -/
theorem fmt_encode_layout_witness :
    fmtToChunk ⟨44100, 2, 16⟩ = ⟨ChunkTag.Fmt,
      [1, 0] ++ le16 2 ++ le32 44100 ++ le32 (44100 * 16 * 2 / 8) ++
        le16 (2 * 16 / 8) ++ le16 16⟩ ∧
    (fmtToChunk ⟨44100, 2, 16⟩).bytes.length = 16 :=
  fmt_encode_layout ⟨44100, 2, 16⟩ (by decide) (by decide)

/-- C9: serialization emits the RIFF literal, the little-endian u32 size
field holding the total output length minus 8, the WAVE literal, the
framed fmt chunk and the framed data chunk; the ancillary chunks held in
`w.chunks` do not appear in the output, and framing a chunk adds exactly
the 8 header bytes (tag and length) to its payload, never a padding
byte. -/
theorem wav_to_bytes_layout (w : Wav) (c : Chunk) :
    wavToBytes w = [82, 73, 70, 70] ++ le32 ((wavToBytes w).length - 8) ++
      [87, 65, 86, 69] ++ chunkToBytes (fmtToChunk w.fmt) ++
      chunkToBytes (dataToChunk w.data) ∧
    (chunkToBytes c).length = 8 + c.bytes.length := by
  constructor
  · have hlen : (wavToBytes w).length =
        ([82, 73, 70, 70, 0, 0, 0, 0, 87, 65, 86, 69] ++
          chunkToBytes (fmtToChunk w.fmt) ++
          chunkToBytes (dataToChunk w.data)).length := by
      simp only [wavToBytes]
      simp [List.length_append, le32]
    rw [hlen]
    simp only [wavToBytes]
    simp [List.take, List.drop]
  · rcases c with ⟨id, bs⟩
    cases id <;> simp [chunkToBytes, tagToBytes, le32] <;> omega

end Wavv
